import Mathlib

set_option maxHeartbeats 1000000
set_option maxRecDepth 8000

/-
Verification of the image thumbnail/preview cache and decode pipeline of
src/infrastructure/image_service.py, as a shallow embedding in Lean 4.

Modelling conventions:
- Qt's QImage is modelled as width, height and an RGB pixel sampler; Qt's
  "null image" (failed decode / default constructed) is the zero-sized image.
- Python exceptions are modelled with Except-valued oracles in a `World`
  record: each primitive that the source wraps in a try/except appears as an
  Except value, and the catch sites of the source become pattern matches.
- The ImageService state (memory LRU cache, disk thumbnail directory) is an
  explicit `ServiceState`; the disk cache maps a cache key to the image that
  decoding the backing file would yield (`none` when no file exists).
- hashlib.sha1(...).hexdigest() and Python's decimal int formatting and UTF-8
  encoding are implemented concretely below.
-/

/-- Model of Qt's QImage: width, height, and an RGB pixel sampler (values are
channel triples). A failed decode in Qt yields the null image, modelled as a
zero-sized image. -/
structure QImage where
  width : Nat
  height : Nat
  pix : Nat → Nat → Nat × Nat × Nat

/-- Qt's QImage.isNull: true exactly for the degenerate zero-sized image. -/
def QImage.isNull (img : QImage) : Bool :=
  img.width == 0 || img.height == 0

/-- The synthesized placeholder of ImageService._get_image:
`QImage(64, 64, Format_ARGB32)` filled with `QColor(220, 220, 220)`. -/
def placeholderImage : QImage :=
  { width := 64, height := 64, pix := fun _ _ => (220, 220, 220) }

/-- The inner `is_grey` predicate of ImageService._looks_like_placeholder:
every channel within plus/minus 2 of 220. -/
def isGrey (c : Nat × Nat × Nat) : Bool :=
  decide ((((c.1 : Int) - 220).natAbs ≤ 2) ∧ (((c.2.1 : Int) - 220).natAbs ≤ 2)
    ∧ (((c.2.2 : Int) - 220).natAbs ≤ 2))

/-- ImageService._looks_like_placeholder: a 64x64 image whose corner (0,0),
center (width//2, height//2) and opposite corner (width-1, height-1) pixels are
all grey within tolerance. (The try/except in the source guards pixel access,
which is total in this model.) -/
def looks_like_placeholder (img : QImage) : Bool :=
  if img.width == 64 && img.height == 64 then
    isGrey (img.pix 0 0)
      && isGrey (img.pix (img.width / 2) (img.height / 2))
      && isGrey (img.pix (img.width - 1) (img.height - 1))
  else
    false

/-- Decimal digit characters of `n`, most significant first, by structural
recursion on a fuel bound (any fuel at least `n` gives all digits). -/
def decReprAux : Nat → Nat → List Char
  | _, 0 => []
  | 0, _ + 1 => []
  | fuel + 1, n + 1 =>
    decReprAux fuel ((n + 1) / 10) ++ [Char.ofNat (48 + (n + 1) % 10)]

/-- Python's decimal formatting of a non-negative integer, as used by the
f-string in _compute_cache_key. -/
def decRepr (n : Nat) : String :=
  if n = 0 then "0" else String.mk (decReprAux n n)

/-- The pre-hash signature string of _compute_cache_key:
`f"{path}|{mtime_ns}|{size}|{size_key}"`. -/
def cacheSig (path : String) (mtimeNs fileSize sizeKey : Nat) : String :=
  path ++ "|" ++ decRepr mtimeNs ++ "|" ++ decRepr fileSize ++ "|" ++ decRepr sizeKey

/-- UTF-8 encoding of one character (str.encode("utf-8")). -/
def utf8Char (c : Char) : List Nat :=
  let n := c.toNat
  if n < 128 then [n]
  else if n < 2048 then [192 + n / 64, 128 + n % 64]
  else if n < 65536 then [224 + n / 4096, 128 + (n / 64) % 64, 128 + n % 64]
  else [240 + n / 262144, 128 + (n / 4096) % 64, 128 + (n / 64) % 64, 128 + n % 64]

/-- UTF-8 encoding of a string as a byte list. -/
def utf8Bytes (s : String) : List Nat :=
  (s.data.map utf8Char).flatten

/-- 2 to the 32, the word modulus of SHA-1. -/
def pow32 : Nat := 4294967296

/-- 32-bit left rotation (operand assumed below 2^32). -/
def rotl (k x : Nat) : Nat :=
  ((x <<< k) ||| (x >>> (32 - k))) % pow32

/-- Big-endian byte expansion of a value into `k` bytes. -/
def beBytes : Nat → Nat → List Nat
  | 0, _ => []
  | k + 1, v => beBytes k (v / 256) ++ [v % 256]

/-- SHA-1 message padding: append 0x80, zero bytes to 56 mod 64, then the
64-bit big-endian bit length. -/
def sha1Pad (msg : List Nat) : List Nat :=
  msg ++ 128 :: (List.replicate ((119 - msg.length % 64) % 64) 0 ++ beBytes 8 (msg.length * 8))

/-- Group bytes into big-endian 32-bit words. -/
def toWords : List Nat → List Nat
  | a :: b :: c :: d :: rest => (((a * 256 + b) * 256 + c) * 256 + d) :: toWords rest
  | _ => []

/-- SHA-1 message-schedule expansion: append `k` more schedule words to `w`,
each the rotated xor of the words 3, 8, 14 and 16 positions back. -/
def expandFrom (w : List Nat) : Nat → List Nat
  | 0 => w
  | k + 1 =>
    expandFrom
      (w ++ [rotl 1 ((((w.getD (w.length - 3) 0) ^^^ (w.getD (w.length - 8) 0))
        ^^^ (w.getD (w.length - 14) 0)) ^^^ (w.getD (w.length - 16) 0))]) k

/-- One SHA-1 round: state update for round index `i` with schedule word `wi`. -/
def sha1Round (st : Nat × Nat × Nat × Nat × Nat) (i : Nat) (wi : Nat) :
    Nat × Nat × Nat × Nat × Nat :=
  let a := st.1
  let b := st.2.1
  let c := st.2.2.1
  let d := st.2.2.2.1
  let e := st.2.2.2.2
  let f :=
    if i < 20 then (b &&& c) ||| (((pow32 - 1) ^^^ b) &&& d)
    else if i < 40 then b ^^^ c ^^^ d
    else if i < 60 then (b &&& c) ||| ((b &&& d) ||| (c &&& d))
    else b ^^^ c ^^^ d
  let k :=
    if i < 20 then 1518500249
    else if i < 40 then 1859775393
    else if i < 60 then 2400959708
    else 3395469782
  ((rotl 5 a + f + e + k + wi) % pow32, a, rotl 30 b, c, d)

/-- SHA-1 compression of one 16-word block into the running hash state. -/
def sha1Block (h : Nat × Nat × Nat × Nat × Nat) (block : List Nat) :
    Nat × Nat × Nat × Nat × Nat :=
  let w80 := expandFrom block 64
  let st := (List.range 80).foldl (fun st i => sha1Round st i (w80.getD i 0)) h
  ((h.1 + st.1) % pow32, (h.2.1 + st.2.1) % pow32, (h.2.2.1 + st.2.2.1) % pow32,
    (h.2.2.2.1 + st.2.2.2.1) % pow32, (h.2.2.2.2 + st.2.2.2.2) % pow32)

/-- SHA-1 processing of the padded word stream, 16 words per block (padding
guarantees a multiple of 16 words). -/
def sha1Words (h : Nat × Nat × Nat × Nat × Nat) : List Nat → Nat × Nat × Nat × Nat × Nat
  | w0 :: w1 :: w2 :: w3 :: w4 :: w5 :: w6 :: w7 :: w8 :: w9 :: w10 :: w11 :: w12 :: w13
      :: w14 :: w15 :: rest =>
    sha1Words (sha1Block h
      [w0, w1, w2, w3, w4, w5, w6, w7, w8, w9, w10, w11, w12, w13, w14, w15]) rest
  | _ => h

/-- Lower-case hex digit. -/
def hexChar (n : Nat) : Char :=
  if n < 10 then Char.ofNat (48 + n) else Char.ofNat (87 + n)

/-- Eight hex digits of a 32-bit word, most significant first. -/
def wordHex (w : Nat) : List Char :=
  (List.range 8).map (fun i => hexChar ((w >>> ((7 - i) * 4)) % 16))

/-- hashlib.sha1(msg).hexdigest(): the 40-hex-character SHA-1 digest. -/
def sha1Hex (msg : List Nat) : String :=
  let h := sha1Words (1732584193, 4023233417, 2562383102, 271733878, 3285377520)
    (toWords (sha1Pad msg))
  String.mk (wordHex h.1 ++ (wordHex h.2.1 ++ (wordHex h.2.2.1
    ++ (wordHex h.2.2.2.1 ++ wordHex h.2.2.2.2))))

/-- Result of os.stat: modification time in nanoseconds and size in bytes. -/
structure FileStat where
  mtime_ns : Nat
  size : Nat

/-- The module function _compute_cache_key: SHA-1 hexdigest of the
`path|mtime_ns|size|size_key` signature, with the `(path, 0, 0, size_key)`
fallback when os.stat raises OSError. -/
def compute_cache_key (stat : String → Except Unit FileStat) (path : String)
    (sizeKey : Nat) : String :=
  let sig :=
    match stat path with
    | Except.ok st => cacheSig path st.mtime_ns st.size sizeKey
    | Except.error _ => cacheSig path 0 0 sizeKey
  sha1Hex (utf8Bytes sig)

/-- A file on disk for staleness analysis: its byte content and mtime.
os.stat reports st_size as the content length. -/
structure FileData where
  content : List Nat
  mtime_ns : Nat

/-- Cache key of a concrete file: _compute_cache_key against a stat oracle
reporting the file's mtime_ns and st_size (content length). -/
def fileKey (fd : FileData) (path : String) (sizeKey : Nat) : String :=
  compute_cache_key (fun _ => Except.ok { mtime_ns := fd.mtime_ns, size := fd.content.length })
    path sizeKey

/-- The _LRUCache state: capacity and the OrderedDict contents as a list of
key/image pairs, least recently used first (OrderedDict insertion order). -/
structure LRUCache where
  cap : Nat
  data : List (String × QImage)

/-- The _LRUCache constructor: `max(1, int(capacity or 1))`, empty dict. -/
def LRUCache.init (capacity : Int) : LRUCache :=
  { cap := (max 1 (if capacity = 0 then 1 else capacity)).toNat, data := [] }

/-- _LRUCache.get: return the cached image for the key after moving its entry
to the most-recently-used (last) position; `none` and no change on a miss. -/
def LRUCache.get (c : LRUCache) (key : String) : Option QImage × LRUCache :=
  match c.data.find? (fun q => q.1 == key) with
  | none => (none, c)
  | some item =>
    (some item.2, { cap := c.cap, data := c.data.filter (fun q => !(q.1 == key)) ++ [item] })

/-- The eviction loop of _LRUCache.put: `while len(data) > cap: popitem(last=False)`,
popping from the least-recently-used (front) end. -/
def evictLoop (cap : Nat) : List (String × QImage) → List (String × QImage)
  | [] => []
  | a :: t => if cap < (a :: t).length then evictLoop cap t else a :: t

/-- _LRUCache.put: insert or update the key at the most-recently-used (last)
position, then run the eviction loop. -/
def LRUCache.put (c : LRUCache) (key : String) (img : QImage) : LRUCache :=
  let data1 :=
    if (c.data.find? (fun q => q.1 == key)).isSome then
      c.data.filter (fun q => !(q.1 == key)) ++ [(key, img)]
    else
      c.data ++ [(key, img)]
  { cap := c.cap, data := evictLoop c.cap data1 }

/-- Sequence of _LRUCache.put calls, in list order. -/
def putAll (c : LRUCache) (ks : List (String × QImage)) : LRUCache :=
  ks.foldl (fun acc kv => acc.put kv.1 kv.2) c

/-- Final path component (after the last slash or backslash), as pathlib's
Path(path).name. -/
def fileName (p : String) : String :=
  String.mk (p.data.foldl (fun acc c => if c = '/' ∨ c = '\\' then [] else acc ++ [c]) [])

/-- Index of the last '.' in a character list, if any. -/
def rfindDot : List Char → Option Nat
  | [] => none
  | c :: rest =>
    match rfindDot rest with
    | some i => some (i + 1)
    | none => if c = '.' then some 0 else none

/-- pathlib's Path(path).suffix: the extension of the final component, empty
unless the last dot sits strictly inside the name. -/
def pathSuffix (p : String) : String :=
  let name := fileName p
  match rfindDot name.data with
  | some i => if 0 < i ∧ i < name.data.length - 1 then String.mk (name.data.drop i) else ""
  | none => ""

/-- `Path(path).suffix.lower()` as used by _load_from_source. -/
def pathSuffixLower (p : String) : String :=
  String.mk ((pathSuffix p).data.map Char.toLower)

/-- The three decoder strategies of _load_from_source, for attempt traces. -/
inductive Decoder
  | pillow
  | qtReader
  | shell
  deriving DecidableEq

/-- Mutable state of ImageService: the memory LRU cache and the disk thumbnail
directory. `disk key` is the image that decoding `{key}.jpg` yields (`none`
when the file does not exist; the null image models a corrupt file). -/
structure ServiceState where
  mem : LRUCache
  disk : String → Option QImage

/-- The external world of one ImageService call: the stat oracle, decoder
availability flags and decoder outcomes, and the fallible disk operations.
Except-valued fields model primitives the source wraps in try/except:
`stat` is os.stat (OSError on failure); `pillow` is _load_via_pillow (which
catches internally and returns None on failure); `qtRead` is the QImageReader
block of step 1 (error = the OSError/ValueError its try catches, `ok none` = a
null read); `shellRaw` is the body of _load_via_shell_thumbnail (error = the
OSError its own try catches); `unlinkE` is Path.unlink; `saveE` is QImage.save. -/
structure World where
  stat : String → Except Unit FileStat
  pillow_available : Bool
  pillow_heif_available : Bool
  pillow : String → Nat → Option QImage
  qtRead : String → Nat → Except Unit (Option QImage)
  shellRaw : String → Nat → Except Unit (Option QImage)
  unlinkE : String → Except Unit Unit
  saveE : String → Except Unit Unit

/-- ImageService._load_via_shell_thumbnail: the ctypes body with its outer
`except OSError: return None`. -/
def load_via_shell (w : World) (path : String) (side : Nat) : Option QImage :=
  match w.shellRaw path side with
  | Except.ok r => r
  | Except.error _ => none

/-- ImageService._load_from_source, instrumented with the list of decoder
strategies attempted: for `.heic`/`.heif` with Pillow and pillow-heif
available, try Pillow first and fall back to the shell thumbnail (never the
Qt reader); otherwise try the Qt reader, then the shell thumbnail. The
`except OSError` around the shell calls in the source is subsumed by the
catch inside _load_via_shell_thumbnail itself. -/
def load_from_source (w : World) (path : String) (side : Nat) :
    Option QImage × List Decoder :=
  let ext := pathSuffixLower path
  if (ext == ".heic" || ext == ".heif") && w.pillow_available && w.pillow_heif_available then
    match w.pillow path side with
    | some img =>
      if img.isNull then (load_via_shell w path side, [Decoder.pillow, Decoder.shell])
      else (some img, [Decoder.pillow])
    | none => (load_via_shell w path side, [Decoder.pillow, Decoder.shell])
  else
    match w.qtRead path side with
    | Except.ok (some img) =>
      if img.isNull then (load_via_shell w path side, [Decoder.qtReader, Decoder.shell])
      else (some img, [Decoder.qtReader])
    | Except.ok none => (load_via_shell w path side, [Decoder.qtReader, Decoder.shell])
    | Except.error _ => (load_via_shell w path side, [Decoder.qtReader, Decoder.shell])

/-- Removal of the disk cache file `{key}.jpg` (a successful Path.unlink). -/
def diskFileDelete (disk : String → Option QImage) (key : String) :
    String → Option QImage :=
  fun k => if k == key then none else disk k

/-- Creation of the disk cache file `{key}.jpg` (a successful QImage.save;
later reads of the file are modelled as yielding the saved image). -/
def diskFileWrite (disk : String → Option QImage) (key : String) (img : QImage) :
    String → Option QImage :=
  fun k => if k == key then some img else disk k

/-- The tail of ImageService._get_image from `img = self._load_from_source(...)`
on: on pipeline failure (no image or a null image) synthesize the placeholder
and do not touch the disk; on success write the disk cache best-effort
(an OSError from save is logged and swallowed); either way put the result into
the memory cache and return it. The Format_Invalid conversion before saving
does not change dimensions or pixels and is elided. -/
def loadAndFinish (w : World) (mem1 : LRUCache) (disk : String → Option QImage)
    (path : String) (side : Nat) (key : String) : QImage × ServiceState :=
  match (load_from_source w path side).1 with
  | some img =>
    if img.isNull then
      (placeholderImage, { mem := mem1.put key placeholderImage, disk := disk })
    else
      let disk1 :=
        match w.saveE key with
        | Except.ok _ => diskFileWrite disk key img
        | Except.error _ => disk
      (img, { mem := mem1.put key img, disk := disk1 })
  | none => (placeholderImage, { mem := mem1.put key placeholderImage, disk := disk })

/-- The disk cache consultation of ImageService._get_image: if `{key}.jpg`
exists, decode it; a null decode falls through to the pipeline; a decoded
placeholder-like image is unlinked best-effort (an OSError is swallowed) and
falls through; otherwise the decoded image is put into the memory cache and
returned. The Bool in the result records whether _load_from_source ran. -/
def diskStep (w : World) (mem1 : LRUCache) (disk : String → Option QImage)
    (path : String) (side : Nat) (key : String) :
    Except Unit (QImage × ServiceState × Bool) :=
  match disk key with
  | some dimg =>
    if dimg.isNull then
      let r := loadAndFinish w mem1 disk path side key
      Except.ok (r.1, r.2, true)
    else if looks_like_placeholder dimg then
      let disk1 :=
        match w.unlinkE key with
        | Except.ok _ => diskFileDelete disk key
        | Except.error _ => disk
      let r := loadAndFinish w mem1 disk1 path side key
      Except.ok (r.1, r.2, true)
    else
      Except.ok (dimg, { mem := mem1.put key dimg, disk := disk }, false)
  | none =>
    let r := loadAndFinish w mem1 disk path side key
    Except.ok (r.1, r.2, true)

/-- ImageService._get_image: derive the cache key, consult the memory cache
(a hit that is non-null returns at once, after MRU promotion), then the disk
cache, then the decode pipeline with placeholder fallback. The Except result
type marks the public boundary: an uncaught exception would surface as
`Except.error`, and every fallible primitive of the world is consumed by a
handler translated from a try/except of the source. -/
def get_image (w : World) (s : ServiceState) (path : String) (side : Nat) :
    Except Unit (QImage × ServiceState × Bool) :=
  let key := compute_cache_key w.stat path side
  let r := s.mem.get key
  match r.1 with
  | some img =>
    if img.isNull then diskStep w r.2 s.disk path side key
    else Except.ok (img, { mem := r.2, disk := s.disk }, false)
  | none => diskStep w r.2 s.disk path side key

/-- ImageService.get_thumbnail: delegates to _get_image. -/
def get_thumbnail (w : World) (s : ServiceState) (path : String) (size : Nat) :
    Except Unit (QImage × ServiceState × Bool) :=
  get_image w s path size

/-- ImageService.get_preview: delegates to _get_image. -/
def get_preview (w : World) (s : ServiceState) (path : String) (maxSide : Nat) :
    Except Unit (QImage × ServiceState × Bool) :=
  get_image w s path maxSide

/-- Whether a call result crossed the boundary normally (no exception). -/
def isOkE (r : Except Unit (QImage × ServiceState × Bool)) : Bool :=
  match r with
  | Except.ok _ => true
  | Except.error _ => false

/-- A concrete two-entry cache used by the C10 witness. -/
def lruW : LRUCache :=
  ⟨2, [("a", placeholderImage), ("b", placeholderImage)]⟩

/-- A concrete world in which every primitive fails: os.stat raises OSError,
Pillow is unavailable, the Qt reader yields a null image, the shell thumbnail
provider raises OSError, and unlink and save raise OSError. -/
def w0 : World :=
  { stat := fun _ => Except.error ()
    pillow_available := false
    pillow_heif_available := false
    pillow := fun _ _ => none
    qtRead := fun _ _ => Except.ok none
    shellRaw := fun _ _ => Except.error ()
    unlinkE := fun _ => Except.error ()
    saveE := fun _ => Except.error () }

/-- An empty service state: memory capacity 1, nothing cached, empty disk. -/
def s0 : ServiceState :=
  ⟨⟨1, []⟩, fun _ => none⟩

/-- The result of a concrete cold-cache call, used by witnesses. -/
def r0 : QImage × ServiceState × Bool :=
  match get_thumbnail w0 s0 "p" 5 with
  | Except.ok r => r
  | Except.error _ => (placeholderImage, s0, false)

/-- A grey 64x64 image standing for a stale placeholder persisted on disk by an
earlier run (within the heuristic's tolerance of 220 but not pixel-equal to the
generated placeholder). -/
def phDisk : QImage :=
  ⟨64, 64, fun _ _ => (221, 220, 219)⟩

/-- The cache key of the concrete C7 scenario. -/
def keyCE : String :=
  compute_cache_key w0.stat "q" 7

/-- A service state whose disk cache holds the placeholder-like file for the
key of path "q" at side 7, with an empty memory cache. -/
def sCE : ServiceState :=
  ⟨⟨1, []⟩, fun k => if k == keyCE then some phDisk else none⟩

/-- The result of the concrete C7 scenario call. -/
def rCE : QImage × ServiceState × Bool :=
  match get_thumbnail w0 sCE "q" 7 with
  | Except.ok r => r
  | Except.error _ => (placeholderImage, sCE, false)

/-- A concrete world with Pillow and pillow-heif available and all decoders
failing, used by the C9 witness. -/
def w1 : World :=
  { stat := fun _ => Except.error ()
    pillow_available := true
    pillow_heif_available := true
    pillow := fun _ _ => none
    qtRead := fun _ _ => Except.ok none
    shellRaw := fun _ _ => Except.error ()
    unlinkE := fun _ => Except.error ()
    saveE := fun _ => Except.error () }

/-! Lemmas about the _LRUCache model. -/

lemma evictLoop_eq (cap : Nat) : ∀ l : List (String × QImage),
    evictLoop cap l = l.drop (l.length - cap)
  | [] => by
    unfold evictLoop
    simp
  | a :: t => by
    unfold evictLoop
    split
    · next h =>
      rw [evictLoop_eq cap t]
      have hx : (a :: t).length - cap = (t.length - cap) + 1 := by
        simp only [List.length_cons] at h ⊢
        omega
      rw [hx, List.drop_succ_cons]
    · next h =>
      have hx : (a :: t).length - cap = 0 := by
        simp only [List.length_cons] at h ⊢
        omega
      rw [hx, List.drop_zero]

lemma find?_key_none (k : String) (l : List (String × QImage))
    (h : ∀ q ∈ l, (q.1 == k) = false) : l.find? (fun q => q.1 == k) = none :=
  List.find?_eq_none.2 (fun x hx => by simp [h x hx])

lemma find_evict_append (cap : Nat) (X : List (String × QImage)) (k : String) (v : QImage)
    (hX : ∀ q ∈ X, (q.1 == k) = false) (hcap : 1 ≤ cap) :
    (evictLoop cap (X ++ [(k, v)])).find? (fun q => q.1 == k) = some (k, v) := by
  rw [evictLoop_eq, List.drop_append_eq_append_drop]
  have h2 : (X ++ [(k, v)]).length - cap - X.length = 0 := by
    simp only [List.length_append, List.length_cons, List.length_nil]
    omega
  rw [h2, List.drop_zero, List.find?_append]
  have h3 : (X.drop ((X ++ [(k, v)]).length - cap)).find? (fun q => q.1 == k) = none :=
    find?_key_none k _ (fun q hq => hX q (List.drop_subset _ _ hq))
  rw [h3]
  simp [List.find?]

lemma put_find (c : LRUCache) (k : String) (v : QImage) (hcap : 1 ≤ c.cap) :
    ((c.put k v).data).find? (fun q => q.1 == k) = some (k, v) := by
  unfold LRUCache.put
  split
  · exact find_evict_append c.cap _ k v
      (fun q hq => by simpa using (List.mem_filter.1 hq).2) hcap
  · next h =>
    have hnone : c.data.find? (fun q => q.1 == k) = none := by
      cases hf : c.data.find? (fun q => q.1 == k) with
      | none => rfl
      | some e => rw [hf] at h; simp at h
    exact find_evict_append c.cap _ k v
      (fun q hq => by
        have := List.find?_eq_none.1 hnone q hq
        simpa using this) hcap

lemma get_cap (c : LRUCache) (k : String) : ((c.get k).2).cap = c.cap := by
  unfold LRUCache.get
  cases h : c.data.find? (fun q => q.1 == k) <;> simp

lemma put_length_le (c : LRUCache) (k : String) (v : QImage) :
    ((c.put k v).data).length ≤ c.cap := by
  unfold LRUCache.put
  split <;> (simp only [evictLoop_eq, List.length_drop]; omega)

lemma putAll_cons (c : LRUCache) (kv : String × QImage) (ks : List (String × QImage)) :
    putAll c (kv :: ks) = putAll (c.put kv.1 kv.2) ks := by
  simp [putAll]

lemma putAll_fresh (cap : Nat) : ∀ (ks d : List (String × QImage)),
    d.length ≤ cap → (((d ++ ks).map Prod.fst)).Nodup →
    putAll ⟨cap, d⟩ ks = ⟨cap, (d ++ ks).drop (d.length + ks.length - cap)⟩
  | [], d, hle, _ => by
    have hx : d.length + ([] : List (String × QImage)).length - cap = 0 := by
      simp only [List.length_nil]
      omega
    rw [hx]
    simp [putAll]
  | kv :: ks', d, hle, hnd => by
    have hmapnd : (d.map Prod.fst).Nodup ∧ kv.1 ∉ d.map Prod.fst := by
      rw [List.map_append] at hnd
      have h1 := (List.nodup_append.1 hnd).1
      have hdisj := (List.nodup_append.1 hnd).2.2
      refine ⟨h1, fun hmem => ?_⟩
      exact hdisj hmem (by simp)
    have hfree : ∀ q ∈ d, (q.1 == kv.1) = false := by
      intro q hq
      have : q.1 ∈ d.map Prod.fst := List.mem_map_of_mem _ hq
      have hne : q.1 ≠ kv.1 := fun he => hmapnd.2 (he ▸ this)
      simpa using hne
    have hput : (LRUCache.mk cap d).put kv.1 kv.2
        = ⟨cap, (d ++ [kv]).drop (d.length + 1 - cap)⟩ := by
      unfold LRUCache.put
      have hfn : d.find? (fun q => q.1 == kv.1) = none := find?_key_none kv.1 d hfree
      simp only [hfn, Option.isSome_none, Bool.false_eq_true, if_false]
      rw [evictLoop_eq]
      simp only [List.length_append, List.length_cons, List.length_nil]
    rw [putAll_cons, hput]
    have hle1 : ((d ++ [kv]).drop (d.length + 1 - cap)).length ≤ cap := by
      simp only [List.length_drop, List.length_append, List.length_cons, List.length_nil]
      omega
    have hsub : ((d ++ [kv]).drop (d.length + 1 - cap) ++ ks').Sublist ((d ++ [kv]) ++ ks') :=
      (List.drop_sublist _ _).append_right ks'
    have hnd' : ((((d ++ [kv]).drop (d.length + 1 - cap) ++ ks').map Prod.fst)).Nodup := by
      have heq : (d ++ [kv]) ++ ks' = d ++ kv :: ks' := by simp
      refine List.Nodup.sublist (hsub.map Prod.fst) ?_
      rw [heq]
      exact hnd
    rw [putAll_fresh cap ks' _ hle1 hnd']
    have hdrop : ((d ++ [kv]) ++ ks').drop (d.length + 1 - cap)
        = (d ++ [kv]).drop (d.length + 1 - cap) ++ ks' := by
      rw [List.drop_append_eq_append_drop]
      have h0 : d.length + 1 - cap - (d ++ [kv]).length = 0 := by
        simp only [List.length_append, List.length_cons, List.length_nil]
        omega
      rw [h0, List.drop_zero]
    rw [← hdrop, List.drop_drop]
    have harr : (d ++ [kv]) ++ ks' = d ++ kv :: ks' := by simp
    rw [harr]
    have hidx : (d.length + 1 - cap)
        + (((d ++ [kv]).drop (d.length + 1 - cap)).length + ks'.length - cap)
        = d.length + (kv :: ks').length - cap := by
      simp only [List.length_drop, List.length_append, List.length_cons, List.length_nil]
      omega
    rw [hidx]

lemma filter_eq_single (k : String) : ∀ (l : List (String × QImage)),
    ((l.map Prod.fst)).Nodup → ∀ e, l.find? (fun q => q.1 == k) = some e →
    l.filter (fun q => q.1 == k) = [e]
  | [], _, e, h => by simp at h
  | q :: t, hnd, e, h => by
    have hnd2 : (q.1 :: t.map Prod.fst).Nodup := by simpa using hnd
    obtain ⟨hq1, hq2⟩ := List.nodup_cons.1 hnd2
    by_cases hq : (q.1 == k) = true
    · have he : e = q := by
        simp only [List.find?, hq, cond_true] at h
        exact (Option.some_inj.1 h).symm
      have hk : q.1 = k := by simpa using hq
      have hfree : ∀ r ∈ t, ¬((fun q => q.1 == k) r = true) := by
        intro r hr hrk
        have hr1 : r.1 = k := by simpa using hrk
        have hmem : r.1 ∈ t.map Prod.fst := List.mem_map_of_mem _ hr
        rw [hr1, ← hk] at hmem
        exact hq1 hmem
      rw [List.filter_cons]
      simp only [hq, if_true]
      rw [List.filter_eq_nil_iff.2 hfree, he]
    · have hqf : (q.1 == k) = false := by simpa using hq
      have h' : t.find? (fun q => q.1 == k) = some e := by
        simpa only [List.find?, hqf, cond_false] using h
      have ht : t.filter (fun q => q.1 == k) = [e] := filter_eq_single k t hq2 e h'
      rw [List.filter_cons]
      simp only [hqf, if_false]
      exact ht

/-- Claim C5: for a memory cache of capacity C >= 1, putting C+1 distinct keys
into an empty cache leaves exactly the most-recently-used C entries (in order),
so the never-re-accessed first key is evicted; the _LRUCache constructor with
capacity C yields that cache; after every put the cache holds at most its
capacity; the eviction loop removes entries from the least-recently-used front
end; and a get hit returns the stored image and promotes the entry to the
most-recently-used (last) position. -/
theorem C5_lru_eviction (C : Nat) (hC : 1 ≤ C) (ks : List (String × QImage))
    (hnd : (ks.map Prod.fst).Nodup) (hlen : ks.length = C + 1) :
    (putAll ⟨C, []⟩ ks).data = ks.drop 1
    ∧ (∀ e, ks.head? = some e → e.1 ∉ ((putAll ⟨C, []⟩ ks).data.map Prod.fst))
    ∧ LRUCache.init (Int.ofNat C) = ⟨C, []⟩
    ∧ (∀ (c : LRUCache) (k : String) (v : QImage), ((c.put k v).data).length ≤ c.cap)
    ∧ (∀ (cap : Nat) (l : List (String × QImage)), evictLoop cap l = l.drop (l.length - cap))
    ∧ (∀ (c : LRUCache) (e : String × QImage),
        c.data.find? (fun q => q.1 == e.1) = some e →
        (c.get e.1).1 = some e.2 ∧ ((c.get e.1).2).data.getLast? = some e) := by
  have hdata : (putAll ⟨C, []⟩ ks).data = ks.drop 1 := by
    have hfr := putAll_fresh C ks [] (by simp) (by simpa using hnd)
    rw [hfr]
    simp only [List.nil_append, List.length_nil]
    congr 1
    omega
  refine ⟨hdata, ?_, ?_, put_length_le, evictLoop_eq, ?_⟩
  · intro e he
    cases ks with
    | nil => simp at he
    | cons a t =>
      have ha : a = e := by simpa using he
      rw [hdata]
      simp only [List.drop_succ_cons, List.drop_zero]
      have hnd2 : (a.1 :: t.map Prod.fst).Nodup := by simpa using hnd
      rw [← ha]
      exact (List.nodup_cons.1 hnd2).1
  · unfold LRUCache.init
    have hne : ¬(Int.ofNat C = 0) := by
      simp only [Int.ofNat_eq_coe, Int.natCast_eq_zero]
      omega
    rw [if_neg hne]
    simp only [LRUCache.mk.injEq, and_true]
    have h1 : (1 : Int) ≤ Int.ofNat C := by
      simp only [Int.ofNat_eq_coe]
      exact_mod_cast hC
    rw [max_eq_right h1]
    simp
  · intro c e hfind
    have hget : c.get e.1
        = (some e.2, ⟨c.cap, c.data.filter (fun q => !(q.1 == e.1)) ++ [e]⟩) := by
      unfold LRUCache.get
      rw [hfind]
    refine ⟨by rw [hget], ?_⟩
    rw [hget]
    simp

/-- Witness for C5 at capacity 1 with two distinct keys. -/
theorem C5_lru_eviction_witness :
    (putAll ⟨1, []⟩ [("a", placeholderImage), ("b", placeholderImage)]).data
        = [("a", placeholderImage), ("b", placeholderImage)].drop 1
    ∧ (∀ e, [("a", placeholderImage), ("b", placeholderImage)].head? = some e →
        e.1 ∉ ((putAll ⟨1, []⟩
          [("a", placeholderImage), ("b", placeholderImage)]).data.map Prod.fst))
    ∧ LRUCache.init (Int.ofNat 1) = ⟨1, []⟩
    ∧ (∀ (c : LRUCache) (k : String) (v : QImage), ((c.put k v).data).length ≤ c.cap)
    ∧ (∀ (cap : Nat) (l : List (String × QImage)), evictLoop cap l = l.drop (l.length - cap))
    ∧ (∀ (c : LRUCache) (e : String × QImage),
        c.data.find? (fun q => q.1 == e.1) = some e →
        (c.get e.1).1 = some e.2 ∧ ((c.get e.1).2).data.getLast? = some e) :=
  C5_lru_eviction 1 (by decide) [("a", placeholderImage), ("b", placeholderImage)]
    (by decide) rfl

/-- Claim C10: _LRUCache.get on an absent key returns None and leaves the cache
unchanged; on a present key it returns the stored image and changes only the
recency order, moving that entry to the most-recently-used (last) position: the
entries are a permutation of the old ones and length and capacity are
unchanged. -/
theorem C10_get_frame (c : LRUCache) (k : String)
    (hnd : (c.data.map Prod.fst).Nodup) :
    (c.data.find? (fun q => q.1 == k) = none → c.get k = (none, c))
    ∧ (∀ e, c.data.find? (fun q => q.1 == k) = some e →
        (c.get k).1 = some e.2
        ∧ List.Perm (((c.get k).2).data) c.data
        ∧ ((c.get k).2).data.length = c.data.length
        ∧ ((c.get k).2).cap = c.cap
        ∧ ((c.get k).2).data.getLast? = some e) := by
  constructor
  · intro hnone
    unfold LRUCache.get
    rw [hnone]
  · intro e hsome
    have hget : c.get k
        = (some e.2, ⟨c.cap, c.data.filter (fun q => !(q.1 == k)) ++ [e]⟩) := by
      unfold LRUCache.get
      rw [hsome]
    have hfil : c.data.filter (fun q => q.1 == k) = [e] :=
      filter_eq_single k c.data hnd e hsome
    have hperm : List.Perm (c.data.filter (fun q => !(q.1 == k)) ++ [e]) c.data := by
      have h1 := List.filter_append_perm (fun q => q.1 == k) c.data
      rw [hfil] at h1
      exact (List.perm_append_comm).trans h1
    refine ⟨by rw [hget], by rw [hget]; exact hperm, by rw [hget]; exact hperm.length_eq,
      by rw [hget], by rw [hget]; simp⟩

/-- Witness for C10 on a concrete two-entry cache at key "a". -/
theorem C10_get_frame_witness :
    (lruW.data.find? (fun q => q.1 == "a") = none → lruW.get "a" = (none, lruW))
    ∧ (∀ e, lruW.data.find? (fun q => q.1 == "a") = some e →
        (lruW.get "a").1 = some e.2
        ∧ List.Perm (((lruW.get "a").2).data) lruW.data
        ∧ ((lruW.get "a").2).data.length = lruW.data.length
        ∧ ((lruW.get "a").2).cap = lruW.cap
        ∧ ((lruW.get "a").2).data.getLast? = some e) :=
  C10_get_frame lruW "a" (by decide)

/-- Claim C8: _looks_like_placeholder holds exactly for a 64x64 image whose
sampled corner (0,0), center (32,32) and opposite corner (63,63) pixels each
have red, green and blue within 2 of 220; an image of any other dimensions is
never classified as a placeholder. -/
theorem C8_heuristic_iff (img : QImage) :
    looks_like_placeholder img = true ↔
      (img.width = 64 ∧ img.height = 64
        ∧ (((img.pix 0 0).1 : Int) - 220).natAbs ≤ 2
        ∧ (((img.pix 0 0).2.1 : Int) - 220).natAbs ≤ 2
        ∧ (((img.pix 0 0).2.2 : Int) - 220).natAbs ≤ 2
        ∧ (((img.pix 32 32).1 : Int) - 220).natAbs ≤ 2
        ∧ (((img.pix 32 32).2.1 : Int) - 220).natAbs ≤ 2
        ∧ (((img.pix 32 32).2.2 : Int) - 220).natAbs ≤ 2
        ∧ (((img.pix 63 63).1 : Int) - 220).natAbs ≤ 2
        ∧ (((img.pix 63 63).2.1 : Int) - 220).natAbs ≤ 2
        ∧ (((img.pix 63 63).2.2 : Int) - 220).natAbs ≤ 2) := by
  constructor
  · intro h
    by_cases hw : img.width = 64
    · by_cases hh : img.height = 64
      · simp only [looks_like_placeholder, isGrey, hw, hh] at h
        norm_num at h
        refine ⟨hw, hh, ?_, ?_, ?_, ?_, ?_, ?_, ?_, ?_, ?_⟩ <;> tauto
      · exfalso
        simp [looks_like_placeholder, hh] at h
    · exfalso
      simp [looks_like_placeholder, hw] at h
  · rintro ⟨hw, hh, h1, h2, h3, h4, h5, h6, h7, h8, h9⟩
    simp [looks_like_placeholder, isGrey, hw, hh, h1, h2, h3, h4, h5, h6, h7, h8, h9]

/-! Lemmas about the cache-key signature (C4). -/

lemma charDigit_ne_bar (d : Nat) (hd : d < 10) : Char.ofNat (48 + d) ≠ '|' := by
  interval_cases d <;> decide

lemma charDigit_toNat (d : Nat) (hd : d < 10) : (Char.ofNat (48 + d)).toNat = 48 + d := by
  interval_cases d <;> decide

lemma decReprAux_eq_digits : ∀ (fuel n : Nat), n ≤ fuel →
    decReprAux fuel n = (Nat.digits 10 n).reverse.map (fun d => Char.ofNat (48 + d))
  | fuel, 0, _ => by
    cases fuel <;> simp [decReprAux]
  | 0, n + 1, h => by omega
  | fuel + 1, n + 1, h => by
    unfold decReprAux
    have hlt : (n + 1) / 10 < n + 1 := Nat.div_lt_self (by omega) (by omega)
    rw [decReprAux_eq_digits fuel ((n + 1) / 10) (by omega)]
    rw [Nat.digits_def' (by norm_num : (1 : Nat) < 10) (by omega : 0 < n + 1)]
    simp

lemma decRepr_no_bar (n : Nat) : ∀ c ∈ (decRepr n).data, c ≠ '|' := by
  intro c hc
  unfold decRepr at hc
  split at hc
  · simp only [String.data] at hc
    have : c = '0' := by simpa using hc
    rw [this]
    decide
  · rw [decReprAux_eq_digits n n le_rfl] at hc
    simp only [String.data, List.mem_map] at hc
    obtain ⟨d, hd, hcd⟩ := hc
    have hdlt : d < 10 := Nat.digits_lt_base (by norm_num) (List.mem_reverse.1 hd)
    rw [← hcd]
    exact charDigit_ne_bar d hdlt

lemma map_toNat_digits (l : List Nat) (hl : ∀ d ∈ l, d < 10) :
    (l.map (fun d => Char.ofNat (48 + d))).map (fun c => c.toNat - 48) = l := by
  induction l with
  | nil => rfl
  | cons a t ih =>
    simp only [List.map_cons, List.cons.injEq]
    refine ⟨?_, ih (fun d hd => hl d (by simp [hd]))⟩
    rw [charDigit_toNat a (hl a (by simp))]
    omega

lemma decRepr_ne_zero_str (n : Nat) (hn : n ≠ 0) : decRepr n ≠ "0" := by
  intro h
  unfold decRepr at h
  rw [if_neg hn, decReprAux_eq_digits n n le_rfl] at h
  have hdata : ((Nat.digits 10 n).reverse.map (fun d => Char.ofNat (48 + d))) = ['0'] := by
    simpa using congrArg String.data h
  have hb : ∀ d ∈ (Nat.digits 10 n).reverse, d < 10 := fun d hd =>
    Nat.digits_lt_base (by norm_num) (List.mem_reverse.1 hd)
  have h2 := congrArg (List.map (fun c => c.toNat - 48)) hdata
  rw [map_toNat_digits _ hb] at h2
  have hz : (('0' : Char).toNat - 48) = 0 := by decide
  simp only [List.map_cons, List.map_nil, hz] at h2
  have h3 : Nat.digits 10 n = [0] := by simpa using congrArg List.reverse h2
  have h4 := Nat.ofDigits_digits 10 n
  rw [h3] at h4
  simp [Nat.ofDigits] at h4
  exact hn h4.symm

lemma decRepr_inj (m n : Nat) (h : decRepr m = decRepr n) : m = n := by
  by_cases hm : m = 0 <;> by_cases hn : n = 0
  · rw [hm, hn]
  · exfalso
    rw [hm] at h
    exact decRepr_ne_zero_str n hn (by rw [← h]; rfl)
  · exfalso
    rw [hn] at h
    exact decRepr_ne_zero_str m hm h
  · have hdata := congrArg String.data h
    unfold decRepr at hdata
    rw [if_neg hm, if_neg hn, decReprAux_eq_digits m m le_rfl,
      decReprAux_eq_digits n n le_rfl] at hdata
    simp only [String.data] at hdata
    have hbm : ∀ d ∈ (Nat.digits 10 m).reverse, d < 10 := fun d hd =>
      Nat.digits_lt_base (by norm_num) (List.mem_reverse.1 hd)
    have hbn : ∀ d ∈ (Nat.digits 10 n).reverse, d < 10 := fun d hd =>
      Nat.digits_lt_base (by norm_num) (List.mem_reverse.1 hd)
    have h2 := congrArg (List.map (fun c => c.toNat - 48)) hdata
    rw [map_toNat_digits _ hbm, map_toNat_digits _ hbn] at h2
    have h3 : Nat.digits 10 m = Nat.digits 10 n := by
      simpa using congrArg List.reverse h2
    have h4 := Nat.ofDigits_digits 10 m
    rw [h3, Nat.ofDigits_digits 10 n] at h4
    exact h4.symm

lemma sep_split : ∀ (a b r s : List Char), (∀ c ∈ a, c ≠ '|') → (∀ c ∈ b, c ≠ '|') →
    a ++ '|' :: r = b ++ '|' :: s → a = b ∧ r = s
  | [], [], r, s, _, _, h => by simpa using h
  | [], x :: b', r, s, _, hb, h => by
    exfalso
    simp only [List.nil_append, List.cons_append, List.cons.injEq] at h
    exact hb x (by simp) h.1.symm
  | x :: a', [], r, s, ha, _, h => by
    exfalso
    simp only [List.nil_append, List.cons_append, List.cons.injEq] at h
    exact ha x (by simp) h.1
  | x :: a', y :: b', r, s, ha, hb, h => by
    simp only [List.cons_append, List.cons.injEq] at h
    obtain ⟨hxy, h'⟩ := h
    have hrest := sep_split a' b' r s (fun c hc => ha c (by simp [hc]))
      (fun c hc => hb c (by simp [hc])) h'
    exact ⟨by rw [hxy, hrest.1], hrest.2⟩

lemma cacheSig_inj (path : String) (m1 s1 k1 m2 s2 k2 : Nat)
    (h : cacheSig path m1 s1 k1 = cacheSig path m2 s2 k2) :
    m1 = m2 ∧ s1 = s2 ∧ k1 = k2 := by
  have hd := congrArg String.data h
  unfold cacheSig at hd
  simp only [String.data_append, List.append_assoc, List.singleton_append] at hd
  have hd2 : (decRepr m1).data ++ '|' :: ((decRepr s1).data ++ '|' :: (decRepr k1).data)
      = (decRepr m2).data ++ '|' :: ((decRepr s2).data ++ '|' :: (decRepr k2).data) := by
    have := List.append_cancel_left hd
    exact List.cons.inj this |>.2
  have hsplit1 := sep_split _ _ _ _ (decRepr_no_bar m1) (decRepr_no_bar m2) hd2
  have hsplit2 := sep_split _ _ _ _ (decRepr_no_bar s1) (decRepr_no_bar s2) hsplit1.2
  refine ⟨decRepr_inj m1 m2 ?_, decRepr_inj s1 s2 ?_, decRepr_inj k1 k2 ?_⟩
  · exact String.ext hsplit1.1
  · exact String.ext hsplit2.1
  · exact String.ext hsplit2.2

/-- Counterexample to claim C4 as stated: two files with different byte content
but the same length and the same mtime_ns produce the identical cache key for
the same path and requested side, because _compute_cache_key reads only
os.stat metadata. -/
theorem C4_counterexample :
    (FileData.mk [0] 5).content ≠ (FileData.mk [1] 5).content
    ∧ fileKey ⟨[0], 5⟩ "p" 7 = fileKey ⟨[1], 5⟩ "p" 7 :=
  ⟨by decide, rfl⟩

/-- Claim C4 (amended): _compute_cache_key is the SHA-1 hexdigest of the
`path|mtime_ns|size|size_key` signature, and for a fixed path the signature
determines mtime_ns, size and the requested dimension uniquely, so any change
to file size, mtime, or requested dimension yields a different signature (hence
a different key whenever SHA-1 does not collide on the signatures in use);
content changes are detected only through their effect on size or mtime. -/
theorem C4_key_sensitivity (path : String) (st : FileStat)
    (m1 s1 k1 m2 s2 k2 : Nat)
    (hsig : cacheSig path m1 s1 k1 = cacheSig path m2 s2 k2) :
    (compute_cache_key (fun _ => Except.ok st) path k1
      = sha1Hex (utf8Bytes (cacheSig path st.mtime_ns st.size k1)))
    ∧ m1 = m2 ∧ s1 = s2 ∧ k1 = k2 :=
  ⟨rfl, cacheSig_inj path m1 s1 k1 m2 s2 k2 hsig⟩

/-- Witness for the amended C4 at concrete values. -/
theorem C4_key_sensitivity_witness :
    (compute_cache_key (fun _ => Except.ok ⟨1, 2⟩) "p" 3
      = sha1Hex (utf8Bytes (cacheSig "p" 1 2 3)))
    ∧ 4 = 4 ∧ 5 = 5 ∧ 3 = 3 :=
  C4_key_sensitivity "p" ⟨1, 2⟩ 4 5 3 4 5 3 rfl

/-! Lemmas about ImageService._get_image. -/

lemma placeholderImage_isNull : placeholderImage.isNull = false := by
  decide

lemma loadAndFinish_isNull (w : World) (mem1 : LRUCache) (disk : String → Option QImage)
    (path : String) (side : Nat) (key : String) :
    (loadAndFinish w mem1 disk path side key).1.isNull = false := by
  unfold loadAndFinish
  cases hres : (load_from_source w path side).1 with
  | none => exact placeholderImage_isNull
  | some img =>
    by_cases hn : img.isNull = true
    · simp only [hn, if_true]
      exact placeholderImage_isNull
    · have hb : img.isNull = false := by simpa using hn
      simp only [hb, Bool.false_eq_true, if_false]

lemma diskStep_isNull (w : World) (mem1 : LRUCache) (disk : String → Option QImage)
    (path : String) (side : Nat) (key : String) (img : QImage) (s2 : ServiceState) (b : Bool)
    (h : diskStep w mem1 disk path side key = Except.ok (img, s2, b)) :
    img.isNull = false := by
  unfold diskStep at h
  split at h
  next dimg =>
    split at h
    next hnull =>
      simp only [Except.ok.injEq, Prod.mk.injEq] at h
      rw [← h.1]
      exact loadAndFinish_isNull w mem1 disk path side key
    next hnull =>
      split at h
      next hph =>
        simp only [Except.ok.injEq, Prod.mk.injEq] at h
        rw [← h.1]
        exact loadAndFinish_isNull w mem1 _ path side key
      next hph =>
        simp only [Except.ok.injEq, Prod.mk.injEq] at h
        rw [← h.1]
        simpa using hnull
  next =>
    simp only [Except.ok.injEq, Prod.mk.injEq] at h
    rw [← h.1]
    exact loadAndFinish_isNull w mem1 disk path side key

lemma get_image_isNull (w : World) (s : ServiceState) (path : String) (side : Nat)
    (img : QImage) (s2 : ServiceState) (b : Bool)
    (h : get_image w s path side = Except.ok (img, s2, b)) :
    img.isNull = false := by
  simp only [get_image] at h
  split at h
  next img0 heq =>
    split at h
    next hnull => exact diskStep_isNull w _ s.disk path side _ img s2 b h
    next hnull =>
      simp only [Except.ok.injEq, Prod.mk.injEq] at h
      rw [← h.1]
      simpa using hnull
  next heq => exact diskStep_isNull w _ s.disk path side _ img s2 b h

lemma get_hit_find (c : LRUCache) (key : String) (item : String × QImage)
    (hfind : c.data.find? (fun q => q.1 == key) = some item) :
    ((c.get key).2).data.find? (fun q => q.1 == key) = some item := by
  unfold LRUCache.get
  rw [hfind]
  simp only
  rw [List.find?_append, find?_key_none key _
    (fun q hq => by simpa using (List.mem_filter.1 hq).2)]
  have hkey := List.find?_some hfind
  simp [List.find?, hkey]

lemma put_cap (c : LRUCache) (k : String) (v : QImage) : (c.put k v).cap = c.cap := by
  unfold LRUCache.put
  rfl

lemma loadAndFinish_find (w : World) (mem1 : LRUCache) (disk : String → Option QImage)
    (path : String) (side : Nat) (key : String) (hcap : 1 ≤ mem1.cap) :
    ((loadAndFinish w mem1 disk path side key).2.mem.data.find? (fun q => q.1 == key))
      = some (key, (loadAndFinish w mem1 disk path side key).1) := by
  unfold loadAndFinish
  cases hres : (load_from_source w path side).1 with
  | none => exact put_find mem1 key placeholderImage hcap
  | some img =>
    by_cases hn : img.isNull = true
    · simp only [hn, if_true]
      exact put_find mem1 key placeholderImage hcap
    · have hb : img.isNull = false := by simpa using hn
      simp only [hb, Bool.false_eq_true, if_false]
      exact put_find mem1 key img hcap

lemma diskStep_find (w : World) (mem1 : LRUCache) (disk : String → Option QImage)
    (path : String) (side : Nat) (key : String) (hcap : 1 ≤ mem1.cap)
    (img : QImage) (s2 : ServiceState) (b : Bool)
    (h : diskStep w mem1 disk path side key = Except.ok (img, s2, b)) :
    s2.mem.data.find? (fun q => q.1 == key) = some (key, img) := by
  unfold diskStep at h
  split at h
  next dimg =>
    split at h
    next hnull =>
      simp only [Except.ok.injEq, Prod.mk.injEq] at h
      rw [← h.1, ← h.2.1]
      exact loadAndFinish_find w mem1 disk path side key hcap
    next hnull =>
      split at h
      next hph =>
        simp only [Except.ok.injEq, Prod.mk.injEq] at h
        rw [← h.1, ← h.2.1]
        exact loadAndFinish_find w mem1 _ path side key hcap
      next hph =>
        simp only [Except.ok.injEq, Prod.mk.injEq] at h
        rw [← h.1, ← h.2.1]
        exact put_find mem1 key _ hcap
  next =>
    simp only [Except.ok.injEq, Prod.mk.injEq] at h
    rw [← h.1, ← h.2.1]
    exact loadAndFinish_find w mem1 disk path side key hcap

lemma get_image_find (w : World) (s : ServiceState) (path : String) (side : Nat)
    (hcap : 1 ≤ s.mem.cap) (img : QImage) (s2 : ServiceState) (b : Bool)
    (h : get_image w s path side = Except.ok (img, s2, b)) :
    s2.mem.data.find? (fun q => q.1 == compute_cache_key w.stat path side)
      = some (compute_cache_key w.stat path side, img) := by
  have hcap1 : 1 ≤ ((s.mem.get (compute_cache_key w.stat path side)).2).cap := by
    rw [get_cap]
    exact hcap
  simp only [get_image] at h
  split at h
  next img0 heq =>
    split at h
    next hnull => exact diskStep_find w _ s.disk path side _ hcap1 img s2 b h
    next hnull =>
      simp only [Except.ok.injEq, Prod.mk.injEq] at h
      obtain ⟨hi, hs, _⟩ := h
      cases hf : s.mem.data.find? (fun q => q.1 == compute_cache_key w.stat path side) with
      | none =>
        exfalso
        unfold LRUCache.get at heq
        rw [hf] at heq
        simp at heq
      | some item =>
        have hitem2 : item.2 = img0 := by
          unfold LRUCache.get at heq
          rw [hf] at heq
          simpa using heq
        have hitem1 : item.1 = compute_cache_key w.stat path side := by
          have := List.find?_some hf
          simpa using this
        have hpromoted := get_hit_find s.mem (compute_cache_key w.stat path side) item hf
        rw [← hs]
        simp only
        rw [hpromoted, ← hitem1, ← hi, ← hitem2]
  next heq => exact diskStep_find w _ s.disk path side _ hcap1 img s2 b h

lemma diskStep_isOk (w : World) (mem1 : LRUCache) (disk : String → Option QImage)
    (path : String) (side : Nat) (key : String) :
    isOkE (diskStep w mem1 disk path side key) = true := by
  unfold diskStep
  split
  next dimg =>
    split
    next => rfl
    next =>
      split
      next => rfl
      next => rfl
  next => rfl

lemma diskStep_null_decode (w : World) (mem1 : LRUCache) (disk : String → Option QImage)
    (path : String) (side : Nat) (key : String) (dimg : QImage)
    (hdk : disk key = some dimg) (hnull : dimg.isNull = true) :
    diskStep w mem1 disk path side key
      = Except.ok ((loadAndFinish w mem1 disk path side key).1,
          (loadAndFinish w mem1 disk path side key).2, true) := by
  unfold diskStep
  rw [hdk]
  simp only [hnull, if_true]

lemma diskStep_scrub_ok (w : World) (mem1 : LRUCache) (disk : String → Option QImage)
    (path : String) (side : Nat) (key : String) (dimg : QImage)
    (hdk : disk key = some dimg) (hnull : dimg.isNull = false)
    (hph : looks_like_placeholder dimg = true) (hunl : w.unlinkE key = Except.ok ()) :
    diskStep w mem1 disk path side key
      = Except.ok ((loadAndFinish w mem1 (diskFileDelete disk key) path side key).1,
          (loadAndFinish w mem1 (diskFileDelete disk key) path side key).2, true) := by
  unfold diskStep
  rw [hdk]
  simp only [hnull, hph, Bool.false_eq_true, if_false, if_true, hunl]

lemma diskStep_scrub_err (w : World) (mem1 : LRUCache) (disk : String → Option QImage)
    (path : String) (side : Nat) (key : String) (dimg : QImage)
    (hdk : disk key = some dimg) (hnull : dimg.isNull = false)
    (hph : looks_like_placeholder dimg = true) (hunl : w.unlinkE key = Except.error ()) :
    diskStep w mem1 disk path side key
      = Except.ok ((loadAndFinish w mem1 disk path side key).1,
          (loadAndFinish w mem1 disk path side key).2, true) := by
  unfold diskStep
  rw [hdk]
  simp only [hnull, hph, Bool.false_eq_true, if_false, if_true, hunl]

lemma diskStep_authoritative (w : World) (mem1 : LRUCache) (disk : String → Option QImage)
    (path : String) (side : Nat) (key : String) (dimg : QImage)
    (hdk : disk key = some dimg) (hnull : dimg.isNull = false)
    (hph : looks_like_placeholder dimg = false) :
    diskStep w mem1 disk path side key
      = Except.ok (dimg, ⟨mem1.put key dimg, disk⟩, false) := by
  unfold diskStep
  rw [hdk]
  simp only [hnull, hph, Bool.false_eq_true, if_false]

lemma diskStep_missing (w : World) (mem1 : LRUCache) (disk : String → Option QImage)
    (path : String) (side : Nat) (key : String) (hdk : disk key = none) :
    diskStep w mem1 disk path side key
      = Except.ok ((loadAndFinish w mem1 disk path side key).1,
          (loadAndFinish w mem1 disk path side key).2, true) := by
  unfold diskStep
  rw [hdk]

lemma loadAndFinish_fail (w : World) (mem1 : LRUCache) (disk : String → Option QImage)
    (path : String) (side : Nat) (key : String)
    (hload : ∀ i, (load_from_source w path side).1 = some i → i.isNull = true) :
    loadAndFinish w mem1 disk path side key
      = (placeholderImage, ⟨mem1.put key placeholderImage, disk⟩) := by
  unfold loadAndFinish
  cases hres : (load_from_source w path side).1 with
  | none => rfl
  | some i =>
    simp only [hload i hres, if_true]

lemma get_image_memmiss (w : World) (s : ServiceState) (path : String) (n : Nat)
    (key : String) (hkey : key = compute_cache_key w.stat path n)
    (hmem : (s.mem.get key).1 = none
      ∨ ∃ i, (s.mem.get key).1 = some i ∧ i.isNull = true) :
    get_image w s path n = diskStep w ((s.mem.get key).2) s.disk path n key := by
  simp only [get_image]
  rw [← hkey]
  split
  next img0 heq =>
    rcases hmem with hnone | ⟨i, hi, hinull⟩
    · rw [hnone] at heq
      exact absurd heq (by simp)
    · rw [hi] at heq
      obtain rfl : i = img0 := Option.some_inj.1 heq
      simp only [hinull, if_true]
  next heq => rfl

/-- Claim C1: every normal result of get_thumbnail (and get_preview, which
delegates to the same _get_image) is an image with positive width and height —
a real decode or the synthesized 64x64 placeholder, never a null or zero-sized
result. -/
theorem C1_positive_size (w : World) (s : ServiceState) (path : String) (n : Nat)
    (img : QImage) (s2 : ServiceState) (b : Bool)
    (h : get_thumbnail w s path n = Except.ok (img, s2, b)) :
    0 < img.width ∧ 0 < img.height
    ∧ get_preview w s path n = get_thumbnail w s path n := by
  have hnull : img.isNull = false := get_image_isNull w s path n img s2 b h
  unfold QImage.isNull at hnull
  simp only [Bool.or_eq_false_iff, beq_eq_false_iff_ne] at hnull
  exact ⟨Nat.pos_of_ne_zero hnull.1, Nat.pos_of_ne_zero hnull.2, rfl⟩

/-- Witness for C1 on a concrete world where every primitive fails. -/
theorem C1_positive_size_witness :
    0 < r0.1.width ∧ 0 < r0.1.height
    ∧ get_preview w0 s0 "p" 5 = get_thumbnail w0 s0 "p" 5 :=
  C1_positive_size w0 s0 "p" 5 r0.1 r0.2.1 r0.2.2 rfl

/-- Claim C2: for every world (including worlds where os.stat raises, the disk
cache decode yields a null image, every decoder fails, and the disk-cache write
raises), a call to get_thumbnail or get_preview returns normally: no exception
crosses the ImageService public boundary. -/
theorem C2_no_exception (w : World) (s : ServiceState) (path : String) (n : Nat) :
    isOkE (get_thumbnail w s path n) = true ∧ isOkE (get_preview w s path n) = true := by
  have hok : isOkE (get_image w s path n) = true := by
    simp only [get_image]
    split
    next img0 heq =>
      split
      next => exact diskStep_isOk w _ s.disk path n _
      next => rfl
    next heq => exact diskStep_isOk w _ s.disk path n _
  exact ⟨hok, hok⟩

/-- Claim C3: a second get_thumbnail call with the same path and side against
the state produced by the first call, with no file-system change in between
(same world), returns the pixel-identical image (the same QImage value) from
the memory cache and does not invoke the decode pipeline (_load_from_source is
not called: the trace flag of the result is false). -/
theorem C3_second_call_cached (w : World) (s : ServiceState) (path : String) (n : Nat)
    (hcap : 1 ≤ s.mem.cap) (img1 : QImage) (s1 : ServiceState) (b1 : Bool)
    (h : get_thumbnail w s path n = Except.ok (img1, s1, b1)) :
    ∃ s2, get_thumbnail w s1 path n = Except.ok (img1, s2, false) := by
  have hfind := get_image_find w s path n hcap img1 s1 b1 h
  have hnull := get_image_isNull w s path n img1 s1 b1 h
  have h1 : (s1.mem.get (compute_cache_key w.stat path n)).1 = some img1 := by
    unfold LRUCache.get
    rw [hfind]
  refine ⟨⟨(s1.mem.get (compute_cache_key w.stat path n)).2, s1.disk⟩, ?_⟩
  show get_image w s1 path n = _
  simp only [get_image]
  split
  next img0 heq =>
    rw [h1] at heq
    obtain rfl : img1 = img0 := Option.some_inj.1 heq
    simp only [hnull, Bool.false_eq_true, if_false]
  next heq =>
    rw [h1] at heq
    exact Option.noConfusion heq

/-- Witness for C3: the second call after a concrete cold-cache call. -/
theorem C3_second_call_cached_witness :
    ∃ s2, get_thumbnail w0 r0.2.1 "p" 5 = Except.ok (r0.1, s2, false) :=
  C3_second_call_cached w0 s0 "p" 5 (by decide) r0.1 r0.2.1 r0.2.2 rfl

/-- Claim C6: when the decode pipeline fails entirely (no image or a null
image) on a clean miss (memory miss or null memory hit, and no disk-cache file
for the key), _get_image returns the synthesized 64x64 placeholder, stores it
in the memory cache only, and creates no disk-cache file for that key: the
resulting state's disk map is untouched and still has no entry at the key, so a
later disk-cache lookup can never see the placeholder as a persisted result. -/
theorem C6_placeholder_memory_only (w : World) (s : ServiceState) (path : String) (n : Nat)
    (key : String) (hkey : key = compute_cache_key w.stat path n)
    (hmem : (s.mem.get key).1 = none
      ∨ ∃ i, (s.mem.get key).1 = some i ∧ i.isNull = true)
    (hdisk : s.disk key = none)
    (hload : ∀ i, (load_from_source w path n).1 = some i → i.isNull = true) :
    get_thumbnail w s path n
      = Except.ok (placeholderImage,
          ⟨((s.mem.get key).2).put key placeholderImage, s.disk⟩, true)
    ∧ s.disk key = none := by
  have hstep := get_image_memmiss w s path n key hkey hmem
  have hlf := loadAndFinish_fail w ((s.mem.get key).2) s.disk path n key hload
  refine ⟨?_, hdisk⟩
  show get_image w s path n = _
  rw [hstep, diskStep_missing w _ s.disk path n key hdisk, hlf]

/-- Witness for C6 on a concrete world where every decoder fails. -/
theorem C6_placeholder_memory_only_witness :
    (get_thumbnail w0 s0 "p" 5
      = Except.ok (placeholderImage,
          ⟨((s0.mem.get (compute_cache_key w0.stat "p" 5)).2).put
            (compute_cache_key w0.stat "p" 5) placeholderImage, s0.disk⟩, true)
    ∧ s0.disk (compute_cache_key w0.stat "p" 5) = none) :=
  C6_placeholder_memory_only w0 s0 "p" 5 (compute_cache_key w0.stat "p" 5) rfl
    (Or.inl rfl) rfl
    (fun i hi => by
      rw [show (load_from_source w0 "p" 5).1 = none from rfl] at hi
      exact Option.noConfusion hi)

/-- Counterexample to claim C7 as stated: with a placeholder-like image in the
disk cache for the key and an unlink that raises OSError (swallowed by the
source's try/except), the lookup is treated as a miss but the backing file is
NOT deleted — it is still present in the resulting state's disk cache. -/
theorem C7_counterexample :
    looks_like_placeholder phDisk = true
    ∧ sCE.disk keyCE = some phDisk
    ∧ get_thumbnail w0 sCE "q" 7 = Except.ok (rCE.1, rCE.2.1, rCE.2.2)
    ∧ rCE.2.1.disk keyCE = some phDisk := by
  exact ⟨rfl, rfl, rfl, rfl⟩

/-- Claim C7 (amended): for a key whose disk-cache file exists at lookup time,
under a memory miss (or null memory hit): a null disk decode is treated as a
miss and the decode pipeline runs; a decoded placeholder-like image is unlinked
best-effort — the file is deleted when unlink succeeds, while an unlink OSError
is swallowed and the file remains — and in either case the lookup is a miss and
the pipeline runs; otherwise the decoded image is authoritative: it is put into
the memory cache and returned without running the pipeline. -/
theorem C7_disk_scrub (w : World) (s : ServiceState) (path : String) (n : Nat)
    (key : String) (hkey : key = compute_cache_key w.stat path n)
    (hmem : (s.mem.get key).1 = none
      ∨ ∃ i, (s.mem.get key).1 = some i ∧ i.isNull = true)
    (dimg : QImage) (hdisk : s.disk key = some dimg) :
    (dimg.isNull = true →
      ∃ r : QImage × ServiceState, get_thumbnail w s path n = Except.ok (r.1, r.2, true))
    ∧ (dimg.isNull = false → looks_like_placeholder dimg = true →
        w.unlinkE key = Except.ok () →
        (∀ i, (load_from_source w path n).1 = some i → i.isNull = true) →
        get_thumbnail w s path n
          = Except.ok (placeholderImage,
              ⟨((s.mem.get key).2).put key placeholderImage, diskFileDelete s.disk key⟩, true)
          ∧ diskFileDelete s.disk key key = none)
    ∧ (dimg.isNull = false → looks_like_placeholder dimg = true →
        w.unlinkE key = Except.error () →
        (∀ i, (load_from_source w path n).1 = some i → i.isNull = true) →
        get_thumbnail w s path n
          = Except.ok (placeholderImage,
              ⟨((s.mem.get key).2).put key placeholderImage, s.disk⟩, true)
          ∧ s.disk key = some dimg)
    ∧ (dimg.isNull = false → looks_like_placeholder dimg = false →
        get_thumbnail w s path n
          = Except.ok (dimg, ⟨((s.mem.get key).2).put key dimg, s.disk⟩, false)) := by
  have hstep := get_image_memmiss w s path n key hkey hmem
  refine ⟨?_, ?_, ?_, ?_⟩
  · intro h1
    refine ⟨((loadAndFinish w ((s.mem.get key).2) s.disk path n key).1,
      (loadAndFinish w ((s.mem.get key).2) s.disk path n key).2), ?_⟩
    show get_image w s path n = _
    rw [hstep]
    exact diskStep_null_decode w _ s.disk path n key dimg hdisk h1
  · intro h1 h2 h3 hload
    have hlf := loadAndFinish_fail w ((s.mem.get key).2) (diskFileDelete s.disk key)
      path n key hload
    refine ⟨?_, by simp [diskFileDelete]⟩
    show get_image w s path n = _
    rw [hstep, diskStep_scrub_ok w _ s.disk path n key dimg hdisk h1 h2 h3, hlf]
  · intro h1 h2 h3 hload
    have hlf := loadAndFinish_fail w ((s.mem.get key).2) s.disk path n key hload
    refine ⟨?_, hdisk⟩
    show get_image w s path n = _
    rw [hstep, diskStep_scrub_err w _ s.disk path n key dimg hdisk h1 h2 h3, hlf]
  · intro h1 h2
    show get_image w s path n = _
    rw [hstep]
    exact diskStep_authoritative w _ s.disk path n key dimg hdisk h1 h2

/-- Witness for the amended C7 on the concrete stale-placeholder scenario. -/
theorem C7_disk_scrub_witness :
    (phDisk.isNull = true →
      ∃ r : QImage × ServiceState, get_thumbnail w0 sCE "q" 7 = Except.ok (r.1, r.2, true))
    ∧ (phDisk.isNull = false → looks_like_placeholder phDisk = true →
        w0.unlinkE keyCE = Except.ok () →
        (∀ i, (load_from_source w0 "q" 7).1 = some i → i.isNull = true) →
        get_thumbnail w0 sCE "q" 7
          = Except.ok (placeholderImage,
              ⟨((sCE.mem.get keyCE).2).put keyCE placeholderImage,
                diskFileDelete sCE.disk keyCE⟩, true)
          ∧ diskFileDelete sCE.disk keyCE keyCE = none)
    ∧ (phDisk.isNull = false → looks_like_placeholder phDisk = true →
        w0.unlinkE keyCE = Except.error () →
        (∀ i, (load_from_source w0 "q" 7).1 = some i → i.isNull = true) →
        get_thumbnail w0 sCE "q" 7
          = Except.ok (placeholderImage,
              ⟨((sCE.mem.get keyCE).2).put keyCE placeholderImage, sCE.disk⟩, true)
          ∧ sCE.disk keyCE = some phDisk)
    ∧ (phDisk.isNull = false → looks_like_placeholder phDisk = false →
        get_thumbnail w0 sCE "q" 7
          = Except.ok (phDisk, ⟨((sCE.mem.get keyCE).2).put keyCE phDisk, sCE.disk⟩, false)) :=
  C7_disk_scrub w0 sCE "q" 7 keyCE rfl (Or.inl rfl) phDisk rfl

/-- Claim C9: for a path with a .heic or .heif extension, when Pillow and its
HEIF plugin are both available, _load_from_source attempts the Pillow decoder
first; on Pillow failure (no image or a null image) it falls through directly
to the platform shell-thumbnail provider; the general Qt image reader is never
attempted for such a file. -/
theorem C9_heic_order (w : World) (path : String) (n : Nat)
    (hext : pathSuffixLower path = ".heic" ∨ pathSuffixLower path = ".heif")
    (hpil : w.pillow_available = true) (hheif : w.pillow_heif_available = true) :
    ((load_from_source w path n).2.head? = some Decoder.pillow)
    ∧ Decoder.qtReader ∉ (load_from_source w path n).2
    ∧ (∀ i, w.pillow path n = some i → i.isNull = false →
        (load_from_source w path n).2 = [Decoder.pillow]
        ∧ (load_from_source w path n).1 = some i)
    ∧ ((w.pillow path n = none ∨ (∃ i, w.pillow path n = some i ∧ i.isNull = true)) →
        (load_from_source w path n).2 = [Decoder.pillow, Decoder.shell]
        ∧ (load_from_source w path n).1 = load_via_shell w path n) := by
  have hcond : ((pathSuffixLower path == ".heic" || pathSuffixLower path == ".heif")
      && w.pillow_available && w.pillow_heif_available) = true := by
    rcases hext with h | h <;> simp [h, hpil, hheif]
  have hlfs : load_from_source w path n
      = (match w.pillow path n with
        | some img =>
          if img.isNull then (load_via_shell w path n, [Decoder.pillow, Decoder.shell])
          else (some img, [Decoder.pillow])
        | none => (load_via_shell w path n, [Decoder.pillow, Decoder.shell])) := by
    unfold load_from_source
    simp only [hcond, if_true]
  refine ⟨?_, ?_, ?_, ?_⟩
  · rw [hlfs]
    cases hp : w.pillow path n with
    | none => rfl
    | some i =>
      by_cases hn : i.isNull = true
      · simp only [hn, if_true]
        rfl
      · have hb : i.isNull = false := by simpa using hn
        simp only [hb, Bool.false_eq_true, if_false]
        rfl
  · rw [hlfs]
    cases hp : w.pillow path n with
    | none => simp
    | some i =>
      by_cases hn : i.isNull = true
      · simp [hn]
      · have hb : i.isNull = false := by simpa using hn
        simp [hb]
  · intro i hp hn
    rw [hlfs, hp]
    simp only [hn, Bool.false_eq_true, if_false]
    refine ⟨?_, ?_⟩ <;> trivial
  · intro hfail
    rw [hlfs]
    rcases hfail with hp | ⟨i, hp, hn⟩
    · rw [hp]
      exact ⟨rfl, rfl⟩
    · rw [hp]
      simp only [hn, if_true]
      refine ⟨?_, ?_⟩ <;> trivial

/-- Witness for C9 on a concrete HEIC path with Pillow available. -/
theorem C9_heic_order_witness :
    ((load_from_source w1 "a.heic" 5).2.head? = some Decoder.pillow)
    ∧ Decoder.qtReader ∉ (load_from_source w1 "a.heic" 5).2
    ∧ (∀ i, w1.pillow "a.heic" 5 = some i → i.isNull = false →
        (load_from_source w1 "a.heic" 5).2 = [Decoder.pillow]
        ∧ (load_from_source w1 "a.heic" 5).1 = some i)
    ∧ ((w1.pillow "a.heic" 5 = none
        ∨ (∃ i, w1.pillow "a.heic" 5 = some i ∧ i.isNull = true)) →
        (load_from_source w1 "a.heic" 5).2 = [Decoder.pillow, Decoder.shell]
        ∧ (load_from_source w1 "a.heic" 5).1 = load_via_shell w1 "a.heic" 5) :=
  C9_heic_order w1 "a.heic" 5 (Or.inl rfl) rfl rfl
